import Mathlib

/-!
# Verification of the ponder sync engine against its specification

This file gives a shallow embedding in Lean 4 of the parts of the
sync engine (filter model, checkpoint codec, sync store queries,
historical sync drivers, bloom pre-filter, event decoding and the
omnichain coordinator) that the specification's claims are about,
together with theorems settling each claim.

Conventions:
* machine numbers are `Nat`/`Int` (block numbers in the source are JS
  numbers or bigints well inside the safe range);
* SQL text values are `String`, compared byte-lexicographically;
* fallible or stateful code is explicit state passing;
* JS quirks (truncating `%`, truthiness of `0`, `Math.min`) are
  modelled exactly as the host language executes them.
-/

namespace Ponder

/-! ## Byte-lexicographic string comparison

Models the TEXT collation used by the sync-store backends when ordering
and comparing `checkpoint` strings (all checkpoint strings are ASCII
digits, so byte order, char order and codepoint order coincide). -/

/-- Lexicographic strict order on char lists (SQL TEXT `<`). -/
def lexLt : List Char → List Char → Bool
  | [], [] => false
  | [], _ :: _ => true
  | _ :: _, [] => false
  | a :: as, b :: bs =>
    if a < b then true
    else if b < a then false
    else lexLt as bs

/-- SQL TEXT `<` on strings. -/
def strLt (a b : String) : Bool := lexLt a.data b.data

/-- SQL TEXT `<=` on strings. -/
def strLe (a b : String) : Bool := strLt a b || a == b

/-! ## Decimal rendering and zero-padding

Models `x::text` (Postgres) / the zero-padded text encoding (SQLite) of
non-negative integers, and SQL `lpad(s, w, '0')`. -/

/-- One decimal digit as a character. -/
def digitChar : Nat → Char
  | 0 => '0'
  | 1 => '1'
  | 2 => '2'
  | 3 => '3'
  | 4 => '4'
  | 5 => '5'
  | 6 => '6'
  | 7 => '7'
  | 8 => '8'
  | _ => '9'

/-- Decimal digits of `n`, most significant first; `fuel`-structured so
that concrete values reduce definitionally (`fuel > n` suffices). -/
def natDecGo : Nat → Nat → List Char
  | 0, _ => []
  | fuel + 1, n =>
    if n < 10 then [digitChar n]
    else natDecGo fuel (n / 10) ++ [digitChar (n % 10)]

/-- Decimal digit string of `n` (models `n::text`). -/
def natDec (n : Nat) : List Char := natDecGo (n + 1) n

/-- SQL `lpad(s, w, '0')`: left-pad to width `w`, truncating to the
first `w` characters when `s` is longer. -/
def lpad (w : Nat) (s : List Char) : List Char :=
  if s.length < w then List.replicate (w - s.length) '0' ++ s else s.take w

/-- `lpad(n::text, w, '0')`. -/
def lpadDec (w n : Nat) : List Char := lpad w (natDec n)

/-- Numeric value of a decimal digit character. -/
def digitVal (c : Char) : Nat := c.toNat - 48

/-- Numeric value of a decimal digit string. -/
def decVal : List Char → Nat
  | [] => 0
  | c :: cs => digitVal c * 10 ^ cs.length + decVal cs

/-! ## Checkpoint encoding (sync-store `populateEvents`)

Embeds the checkpoint SQL of `populateEvents` (the
`logCheckpointPostgres` / `blockCheckpointPostgres` strings; the SQLite
variants compute the same characters from the zero-padded text
encoding):

```
lpad(ts::text,10,'0') || lpad(chain_id::text,16,'0') ||
lpad(block_number::text,16,'0') || lpad(tx_index::text,16,'0') ||
'5' || lpad(log_index::text,16,'0')
```

and for block filters the trailing fields are the literals
`'9999999999999999'`, `'5'`, `'0000000000000000'`. -/

/-- Checkpoint of a materialized log event. -/
def logCheckpoint (ts chainId blockNumber txIndex logIndex : Nat) : String :=
  ⟨lpadDec 10 ts ++ lpadDec 16 chainId ++ lpadDec 16 blockNumber ++
    lpadDec 16 txIndex ++ ['5'] ++ lpadDec 16 logIndex⟩

/-- Checkpoint of a materialized block event. -/
def blockCheckpoint (ts chainId blockNumber : Nat) : String :=
  ⟨lpadDec 10 ts ++ lpadDec 16 chainId ++ lpadDec 16 blockNumber ++
    "9999999999999999".data ++ "5".data ++ "0000000000000000".data⟩

/-! ## `getEvents` pagination (sync-store)

Embeds `getEvents({filters, from, to, limit})`: select event rows with
`filter_id IN filters`, `from < checkpoint <= to`, ordered by
`(checkpoint asc, filter_id asc)`, `LIMIT limit`; the cursor is `to`
when fewer than `limit` rows come back and the checkpoint of the last
returned row otherwise.  The event table is a list of rows; rows are
unique on `(filter_id, checkpoint)` (the table's conflict target). -/

/-- A materialized event row (the columns pagination depends on). -/
structure EventRow where
  filter_id : String
  checkpoint : String
  deriving DecidableEq, Repr

/-- `ORDER BY checkpoint asc, filter_id asc` comparison. -/
def rowLe (a b : EventRow) : Bool :=
  strLt a.checkpoint b.checkpoint ||
    (a.checkpoint == b.checkpoint &&
      (strLt a.filter_id b.filter_id || a.filter_id == b.filter_id))

/-- Insertion into a `rowLe`-sorted list. -/
def insertRow (a : EventRow) : List EventRow → List EventRow
  | [] => [a]
  | b :: bs => if rowLe a b then a :: b :: bs else b :: insertRow a bs

/-- Insertion sort by `rowLe` (the SQL `ORDER BY`). -/
def sortRows : List EventRow → List EventRow
  | [] => []
  | a :: as => insertRow a (sortRows as)

/-- Does a row match the `getEvents` predicate? -/
def rowMatches (filters : List String) (lo hi : String) (r : EventRow) : Bool :=
  filters.contains r.filter_id && strLt lo r.checkpoint && strLe r.checkpoint hi

/-- `getEvents`: returns the page and the cursor. -/
def getEvents (table : List EventRow) (filters : List String)
    (lo hi : String) (limit : Nat) : List EventRow × String :=
  let events := (sortRows (table.filter (rowMatches filters lo hi))).take limit
  let cursor :=
    if events.length ≠ limit then hi
    else (events.getLastD ⟨"", ""⟩).checkpoint
  (events, cursor)

/-- The pagination loop of the coordinator's historical stream: starting
at `lo`, repeatedly call `getEvents` and continue from the cursor until
the cursor reaches `hi` (`while (from < to or from ≠ to) ...`).  `fuel`
bounds the number of calls; each concrete run below uses enough fuel. -/
def paginateGetEvents (table : List EventRow) (filters : List String)
    (hi : String) (limit : Nat) : Nat → String → List EventRow
  | 0, _ => []
  | fuel + 1, lo =>
    if lo = hi then []
    else
      let page := getEvents table filters lo hi limit
      page.1 ++ paginateGetEvents table filters hi limit fuel page.2

/-! ## Filter ids (`getFilterId`)

The source computes a filter's id as
`` `${type}_${JSON.stringify(filter)}` `` (sync/events.ts, under a
`TODO(kyle) normalize filter before stringify` comment).  We embed the
JSON value domain of filters (strings, non-negative integers, booleans,
null, arrays, key-ordered objects) and `JSON.stringify`, which
serializes object keys in insertion order. -/

/-- JSON values as JS holds them: object properties keep their
insertion order.  Numbers occurring in filters are non-negative
integers. -/
inductive Json where
  | jstr (s : String)
  | jnum (n : Nat)
  | jbool (b : Bool)
  | jnull
  | jarr (xs : List Json)
  | jobj (props : List (String × Json))

/-- A JSON string literal (the strings appearing in filters need no
escaping). -/
def quoteStr (s : String) : String := "\"" ++ s ++ "\""

mutual

/-- `JSON.stringify`, preserving object key order. -/
def stringify : Json → String
  | .jstr s => quoteStr s
  | .jnum n => ⟨natDec n⟩
  | .jbool b => if b then "true" else "false"
  | .jnull => "null"
  | .jarr xs => "[" ++ stringifyItems xs ++ "]"
  | .jobj props => "\x7b" ++ stringifyProps props ++ "\x7d"

/-- Comma-separated array items. -/
def stringifyItems : List Json → String
  | [] => ""
  | [x] => stringify x
  | x :: y :: xs => stringify x ++ "," ++ stringifyItems (y :: xs)

/-- Comma-separated `"key":value` properties. -/
def stringifyProps : List (String × Json) → String
  | [] => ""
  | [(k, v)] => quoteStr k ++ ":" ++ stringify v
  | (k, v) :: p :: props =>
    quoteStr k ++ ":" ++ stringify v ++ "," ++ stringifyProps (p :: props)

end

/-- `getFilterId(type, filter)`, the sync-store cache key. -/
def getFilterId (ty : String) (filter : Json) : String :=
  ty ++ "_" ++ stringify filter

/-- Insertion of a property into a key-sorted property list. -/
def insertProp (p : String × Json) :
    List (String × Json) → List (String × Json)
  | [] => [p]
  | q :: qs => if strLt p.1 q.1 then p :: q :: qs else q :: insertProp p qs

/-- Sort properties by key. -/
def sortProps : List (String × Json) → List (String × Json)
  | [] => []
  | p :: ps => insertProp p (sortProps ps)

mutual

/-- The spec's canonical form of a filter value: object keys sorted
recursively (addresses are already lowercase and `undefined` properties
are already elided in the value domain, so key order is the only
normalization canonicalization performs on these values). -/
def canonicalJson : Json → Json
  | .jstr s => .jstr s
  | .jnum n => .jnum n
  | .jbool b => .jbool b
  | .jnull => .jnull
  | .jarr xs => .jarr (canonicalItems xs)
  | .jobj props => .jobj (sortProps (canonicalProps props))

/-- Canonicalize every array item. -/
def canonicalItems : List Json → List Json
  | [] => []
  | x :: xs => canonicalJson x :: canonicalItems xs

/-- Canonicalize every property value. -/
def canonicalProps : List (String × Json) → List (String × Json)
  | [] => []
  | (k, v) :: props => (k, canonicalJson v) :: canonicalProps props

end

/-! ## Block-filter alignment (`syncBlockFilter`, historical sync)

Embeds the block-number enumeration of `syncBlockFilter`:

```
const baseOffset = (interval[0] - filter.offset) % filter.interval;
const offset = baseOffset === 0 ? 0 : filter.interval - baseOffset;
for (let b = interval[0] + offset; b <= interval[1]; b += filter.interval)
  requiredBlocks.push(b);
```

JS `%` truncates toward zero (`Int.tmod`), so `baseOffset` is negative
whenever `interval[0] < filter.offset`. -/

/-- JS remainder operator. -/
def jsMod (a b : Int) : Int := Int.tmod a b

/-- The `for` loop collecting `b, b+step, …` up to `hi`; fuel-structured
(`(hi - b).toNat + 1` iterations suffice for `step ≥ 1`). -/
def blocksFromGo (hi step : Int) : Nat → Int → List Int
  | 0, _ => []
  | fuel + 1, b => if b ≤ hi then b :: blocksFromGo hi step fuel (b + step) else []

/-- All loop iterations of `syncBlockFilter`. -/
def blocksFrom (b hi step : Int) : List Int :=
  blocksFromGo hi step ((hi - b).toNat + 1) b

/-- The set of block numbers `syncBlockFilter` requests for a block
filter with spacing `n`, offset `off`, over `[lo, hi]`. -/
def syncBlockFilterBlocks (n off lo hi : Int) : List Int :=
  let baseOffset := jsMod (lo - off) n
  let offset := if baseOffset = 0 then 0 else n - baseOffset
  blocksFrom (lo + offset) hi n

/-! ## Log-bloom pre-filter (`isFilterInBloom`, realtime sync)

Embeds `isFilterInBloom({bloom, filter})` from sync-realtime/bloom.ts.
The bloom membership test `isInBloom(bloom, input)` (three keccak-256
derived bit probes into the 256-byte bloom) is the abstract parameter
`mem : String → Bool`; the claim is about how `isFilterInBloom`
combines those probes.  The source returns bare `undefined`
(`return;`) when the address is a child-address filter, which we model
as `none`; the later `isAddressFilter` branch inside the function is
unreachable because of that early return. -/

/-- One entry of `filter.topics`: `null`/`undefined`, a single topic, or
a list of alternatives. -/
inductive TopicEntry where
  | tnull
  | tsingle (t : String)
  | tlist (ts : List String)
  deriving DecidableEq, Repr

/-- `filter.address`: absent, a single address, an address array, or a
child-address filter. -/
inductive AddrSpec where
  | anone
  | asingle (a : String)
  | alist (addrs : List String)
  | achild
  deriving DecidableEq, Repr

/-- The parts of a log filter `isFilterInBloom` reads. -/
structure BloomLogFilter where
  address : AddrSpec
  topics : Option (List TopicEntry)
  deriving DecidableEq, Repr

/-- One element of `filter.topics.some(...)`: `null`/`undefined` count
as satisfied, an array is satisfied when some member is in the bloom. -/
def topicEntryInBloom (mem : String → Bool) : TopicEntry → Bool
  | .tnull => true
  | .tsingle t => mem t
  | .tlist ts => ts.any mem

/-- The `isAddressInBloom` branch ladder. -/
def addressInBloom (mem : String → Bool) : AddrSpec → Bool
  | .anone => true
  | .asingle a => mem a
  | .alist [] => true
  | .alist addrs => addrs.any mem
  | .achild => true

/-- `isFilterInBloom`: `none` models the bare `return;` taken when the
address is a child-address filter. -/
def isFilterInBloom (mem : String → Bool) (f : BloomLogFilter) : Option Bool :=
  match f.address with
  | .achild => none
  | _ =>
    let isAddressInBloom := addressInBloom mem f.address
    let isTopicsInBloom :=
      match f.topics with
      | none => true
      | some [] => true
      | some ts => ts.any (topicEntryInBloom mem)
    some (isAddressInBloom && isTopicsInBloom)

/-- The per-position requirement the claim asserts: every topic entry
that carries a topic has one of its allowed values in the bloom. -/
def topicsAllSatisfied (mem : String → Bool) (f : BloomLogFilter) : Bool :=
  match f.topics with
  | none => true
  | some ts => ts.all (topicEntryInBloom mem)

/-- The `isTopicsInBloom` branch ladder of `isFilterInBloom`
(`filter.topics === undefined || length 0`, else `.some`). -/
def topicsSomeB (mem : String → Bool) : Option (List TopicEntry) → Bool
  | none => true
  | some [] => true
  | some ts => ts.any (topicEntryInBloom mem)

/-! ## Interval algebra

`intervalDifference` lives in utils/interval.ts, which is not among the
provided source files (only its callers are). -/

/-- An interval is a closed integer block range `[lo, hi]`. -/
abbrev Iv : Type := Int × Int

/-- The pieces of `x` not covered by `y` (possibly empty pieces). -/
def subtractIv (x y : Iv) : List Iv :=
  (if x.1 < y.1 then [(x.1, min x.2 (y.1 - 1))] else []) ++
    (if y.2 < x.2 then [(max x.1 (y.2 + 1), x.2)] else [])

/-- Keep only non-degenerate intervals. -/
def properIvs (xs : List Iv) : List Iv := xs.filter (fun p => p.1 ≤ p.2)

/-- Modelled from the spec: `intervalDifference(xs, ys)` from
utils/interval.ts is absent from the provided sources; the spec defines
it as `xs \ ys` returned as a minimal disjoint list of closed integer
ranges.  We peel every `y` off every `x` in turn; degenerate pieces are
dropped. -/
def intervalDifference (xs ys : List Iv) : List Iv :=
  ys.foldl (fun acc y => (acc.map (fun x => properIvs (subtractIv x y))).flatten)
    (properIvs xs)

/-- Membership of a block number in an interval. -/
def inIv (n : Int) (x : Iv) : Prop := x.1 ≤ n ∧ n ≤ x.2

/-- Coverage of a block number by a list of intervals. -/
def coveredBy (n : Int) (ys : List Iv) : Prop := ∃ y ∈ ys, inIv n y

/-! ## Historical sync driver (`sync`, per source)

Embeds the body of the `sync(_interval)` loop of the historical sync
for a single source, recording every externally visible operation (RPC
requests and sync-store writes) as a `SyncAction`:

```
if (filter.toBlock && filter.toBlock < _interval[0]) continue;
const interval = [max(filter.fromBlock, _interval[0]),
                  min(filter.toBlock ?? Infinity, _interval[1])];
const requiredIntervals = intervalDifference([interval], intervalsCache.get(filter));
if (requiredIntervals.length === 0) continue;
for (const interval of requiredIntervals) { syncLogFilter | syncBlockFilter }
populateEvents(filter, interval); insertInterval("event", filter, interval);
```

RPC responses are supplied by a `SyncEnv` oracle; `blockCache` starts
empty for the source (a fresh `sync()` invocation). -/

/-- Externally visible operations of a `sync()` run. -/
inductive SyncAction where
  | rpcGetLogs (fromB toB : Int)
  | rpcGetBlock (n : Int)
  | storeInsertLogs (count : Nat)
  | storeInsertBlock (n : Int)
  | storeInsertTransaction (hash : String)
  | storeInsertAddresses (count : Nat)
  | storeGetAddresses
  | storePopulateEvents (lo hi : Int)
  | storeInsertInterval (filterType : String) (lo hi : Int)
  deriving DecidableEq, Repr

/-- RPC oracle: `eth_getLogs` answers (block number and transaction
hash of each returned log) and the transaction hashes of each block. -/
structure SyncEnv where
  logsFor : Int → Int → List (Int × String)
  blockTxs : Int → List String

/-- The filter of one source, with the fields `sync()` reads.  A log
filter whose address is a child-address filter carries the child's
cached intervals (`intervalsCache` holds them per address filter). -/
inductive SyncFilter where
  | log (fromBlock : Int) (toBlock : Option Int)
        (childCache : Option (List Iv))
  | block (fromBlock : Int) (toBlock : Option Int) (n off : Int)

/-- `fromBlock` of a filter. -/
def SyncFilter.fromB : SyncFilter → Int
  | .log f _ _ => f
  | .block f _ _ _ => f

/-- `toBlock` of a filter. -/
def SyncFilter.toB : SyncFilter → Option Int
  | .log _ t _ => t
  | .block _ t _ _ => t

/-- `syncBlock(number, transactionHashes?)`: request and insert the
block unless it is in `blockCache`, then insert the transactions whose
hash is in the set.  Returns the actions and the updated cache. -/
def syncBlockActs (env : SyncEnv) (cache : List Int) (n : Int)
    (txHashes : Option (List String)) : List SyncAction × List Int :=
  let fetch : List SyncAction × List Int :=
    if cache.contains n then ([], cache)
    else ([.rpcGetBlock n, .storeInsertBlock n], n :: cache)
  let txActs : List SyncAction :=
    match txHashes with
    | none => []
    | some hs =>
      (env.blockTxs n).filterMap fun h =>
        if hs.contains h then some (.storeInsertTransaction h) else none
  (fetch.1 ++ txActs, fetch.2)

/-- Fold `syncBlock` over a list of block numbers. -/
def syncBlocksActs (env : SyncEnv) (cache : List Int)
    (txHashes : Option (List String)) :
    List Int → List SyncAction × List Int
  | [] => ([], cache)
  | n :: ns =>
    let first := syncBlockActs env cache n txHashes
    let rest := syncBlocksActs env first.2 txHashes ns
    (first.1 ++ rest.1, rest.2)

/-- `syncAddress(childFilter, interval)`: subtract the child's cached
intervals, fetch and insert addresses for what is missing, mark the
interval complete, and read the address set back. -/
def syncAddressActs (env : SyncEnv) (childCache : List Iv) (iv : Iv) :
    List SyncAction :=
  let required := intervalDifference [iv] childCache
  (if required.length = 0 then []
   else
     (required.map fun sub =>
       [SyncAction.rpcGetLogs sub.1 sub.2,
        SyncAction.storeInsertAddresses (env.logsFor sub.1 sub.2).length]).flatten
       ++ [.storeInsertInterval "address" iv.1 iv.2]) ++
    [.storeGetAddresses]

/-- `syncLogFilter(filter, interval)`: resolve the address (via
`syncAddress` when it is a child-address filter), fetch logs, insert
them, and sync every block a log touches. -/
def syncLogFilterActs (env : SyncEnv) (cache : List Int)
    (childCache : Option (List Iv)) (iv : Iv) :
    List SyncAction × List Int :=
  let addrActs :=
    match childCache with
    | none => []
    | some cc => syncAddressActs env cc iv
  let logs := env.logsFor iv.1 iv.2
  let blockNumbers := (logs.map Prod.fst).dedup
  let txHashes := logs.map Prod.snd
  let blocks := syncBlocksActs env cache (some txHashes) blockNumbers
  (addrActs ++ [.rpcGetLogs iv.1 iv.2, .storeInsertLogs logs.length] ++
    blocks.1, blocks.2)

/-- `syncBlockFilter(filter, interval)`: sync every aligned block. -/
def syncBlockFilterActs (env : SyncEnv) (cache : List Int)
    (n off : Int) (iv : Iv) : List SyncAction × List Int :=
  syncBlocksActs env cache none (syncBlockFilterBlocks n off iv.1 iv.2)

/-- Dispatch on the filter kind for one required interval. -/
def syncRequiredActs (env : SyncEnv) (cache : List Int) (f : SyncFilter)
    (iv : Iv) : List SyncAction × List Int :=
  match f with
  | .log _ _ childCache => syncLogFilterActs env cache childCache iv
  | .block _ _ n off => syncBlockFilterActs env cache n off iv

/-- Fold the per-interval work over `requiredIntervals`. -/
def syncRequiredAll (env : SyncEnv) (cache : List Int) (f : SyncFilter) :
    List Iv → List SyncAction × List Int
  | [] => ([], cache)
  | iv :: ivs =>
    let first := syncRequiredActs env cache f iv
    let rest := syncRequiredAll env first.2 f ivs
    (first.1 ++ rest.1, rest.2)

/-- The interval `sync()` clamps the request to:
`[max(fromBlock, lo), min(toBlock ?? Infinity, hi)]`. -/
def clampInterval (f : SyncFilter) (req : Iv) : Iv :=
  (max f.fromB req.1,
    match f.toB with
    | none => req.2
    | some t => min t req.2)

/-- The JS truthiness guard `filter.toBlock && filter.toBlock < lo`
(`toBlock = 0` is falsy and does not trigger the skip). -/
def toBlockGuard (f : SyncFilter) (lo : Int) : Bool :=
  match f.toB with
  | none => false
  | some t => if t = 0 then false else decide (t < lo)

/-- One iteration of the `sync(_interval)` source loop: all actions the
engine performs for this source, given its cached completed intervals
`ivCache`. -/
def syncSourceActs (env : SyncEnv) (f : SyncFilter) (ivCache : List Iv)
    (req : Iv) : List SyncAction :=
  if toBlockGuard f req.1 then []
  else
    let iv := clampInterval f req
    let required := intervalDifference [iv] ivCache
    if required.length = 0 then []
    else
      (syncRequiredAll env [] f required).1 ++
        [.storePopulateEvents iv.1 iv.2,
         .storeInsertInterval "event" iv.1 iv.2]

/-! ## Local sync initialization (`createLocalSync`)

Embeds the start/end block computation:

```
const start = Math.min(...sources.map(({filter}) => filter.fromBlock ?? 0));
const end = sources.some(({filter}) => filter.toBlock === undefined)
  ? undefined
  : Math.min(...sources.map(({filter}) => filter.toBlock!));
```

and then `end === undefined ? undefined : eth_getBlockByNumber(end)`:
the fetched end block is the block at the number `end`. -/

/-- `Math.min(...)` over a spread list; `none` models the `Infinity`
result of an empty spread. -/
def jsMathMin : List Int → Option Int
  | [] => none
  | x :: xs => some (xs.foldl min x)

/-- The number of the block fetched as `endBlock` (each element is the
`toBlock` of one source's filter; `none` is `undefined`). -/
def localSyncEnd (toBlocks : List (Option Int)) : Option Int :=
  if toBlocks.any Option.isNone then none
  else jsMathMin (toBlocks.filterMap id)

/-! ## Child-address extraction (`getLogAddressFilterAddress`)

Embeds the decoding of a child-address location from a matched log:

```
if (childAddressLocation.startsWith("offset")) {
  const childAddressOffset = Number(childAddressLocation.substring(6));
  const start = 2 + 12 * 2 + childAddressOffset * 2;
  return "0x" + log.data.substring(start, start + 40);
} else {
  const start = 2 + 12 * 2;
  return "0x" + log.topics[lastChar(childAddressLocation)].substring(start, start + 40);
}
```

The location type is the union `"topic1" | "topic2" | "topic3" |
offset${number}`; the inductive below carries exactly the data the
string encodes (the topic index digit or the decimal after
`"offset"`). -/

/-- A child-address location. -/
inductive ChildAddressLocation where
  | topic (n : Nat)
  | off (k : Nat)
  deriving DecidableEq, Repr

/-- The topics and data of the emitting log (0x-prefixed hex strings). -/
structure ChildLog where
  topics : List String
  data : String

/-- JS `s.substring(start, start + len)` for in-range arguments. -/
def substrJS (s : String) (start len : Nat) : String :=
  ⟨(s.data.drop start).take len⟩

/-- `getLogAddressFilterAddress(log)` for a given location. -/
def getLogAddressFilterAddress (loc : ChildAddressLocation) (log : ChildLog) :
    String :=
  match loc with
  | .off k => "0x" ++ substrJS log.data (2 + 12 * 2 + k * 2) (20 * 2)
  | .topic n => "0x" ++ substrJS (log.topics.getD n "") (2 + 12 * 2) (20 * 2)

/-- The 20-byte slice of a bare (un-prefixed) hex string starting at
byte `start`: byte `i` occupies characters `2i, 2i+1`. -/
def byteSlice (hex : String) (start len : Nat) : String :=
  ⟨(hex.data.drop (2 * start)).take (2 * len)⟩

/-! ## `decodeEvents` (sync/events.ts)

`decodeEvents({sources, events})` walks `args.events` and rewrites each
element object in place, then returns `args.events` itself.  To express
object identity and in-place mutation we model the JS heap explicitly:
an array of objects is a list of addresses into a heap
`Nat → MutEvent`, and the function returns the heap after mutation
together with the very address list it was given.

A `MutEvent` carries both the `RawEvent` columns and the decoded-event
properties the loop writes (`undefined`-able fields are `Option`s).
The ABI lookups (`abiCache[filter_id][topic0].name`, `nameCache`) and
viem's `decodeEventLog` are external inputs of the loop, supplied as
the parameters `abiNameOf`, `nameOf` and `decodeArgs`. -/

/-- The raw log payload stored in `event.data`. -/
structure RawLogData where
  data : String
  topic0 : Option String
  topic1 : Option String
  topic2 : Option String
  topic3 : Option String
  deriving DecidableEq, Repr

/-- The `event` property written by the decode loop
(`\x7b args, id: checkpoint \x7d`). -/
structure EventBody where
  args : String
  id : String
  deriving DecidableEq, Repr

/-- A JS event object: `RawEvent` columns plus the properties the
decode loop writes onto the same object. -/
structure MutEvent where
  filter_id : Option String
  checkpoint : String
  chain_id : Option Nat
  block_number : Int
  data : Option RawLogData
  type : Option String
  chainId : Option Nat
  contractName : Option String
  logEventName : Option String
  event : Option EventBody
  deriving DecidableEq, Repr

/-- A heap of event objects. -/
def Heap : Type := Nat → MutEvent

/-- Does an object satisfy the `RawEvent` schema (`filter_id`,
`chain_id` and, for log rows, `data` present)? -/
def isValidRawEvent (o : MutEvent) : Bool :=
  o.filter_id.isSome && o.chain_id.isSome

/-- The loop body of `decodeEvents` for one element: reads happen in
statement order against the current object (the abi item and name are
read from `filter_id` before it is cleared, `chainId` is copied from
`chain_id` before it is cleared, `event.id` copies `checkpoint`).  A
`null` `data` payload would throw in the source before any write; the
`getD` default stands for the crashing read and is irrelevant to every
input whose `data` is present. -/
def decodeStep (nameOf : Option String → String)
    (abiNameOf : Option String → Option String → String)
    (decodeArgs : RawLogData → String) (o : MutEvent) : MutEvent :=
  let d := o.data.getD ⟨"", none, none, none, none⟩
  let abiName := abiNameOf o.filter_id d.topic0
  let args := decodeArgs d
  let name := nameOf o.filter_id
  { o with
    data := none
    filter_id := none
    type := some "log"
    chainId := o.chain_id
    chain_id := none
    contractName := some name
    logEventName := some abiName
    event := some ⟨args, o.checkpoint⟩ }

/-- Overwrite the object at address `a`. -/
def heapWrite (h : Heap) (a : Nat) (o : MutEvent) : Heap :=
  fun x => if x = a then o else h x

/-- `decodeEvents`: mutate every element of the array in place and
return the argument array itself (together with the heap after
mutation). -/
def decodeEvents (nameOf : Option String → String)
    (abiNameOf : Option String → Option String → String)
    (decodeArgs : RawLogData → String) (h : Heap) (events : List Nat) :
    Heap × List Nat :=
  (events.foldl
    (fun hh a => heapWrite hh a (decodeStep nameOf abiNameOf decodeArgs (hh a)))
    h,
   events)

/-! ## Reorg handling (omnichain coordinator + sync store)

Embeds the `"reorg"` branch of `onRealtimeSyncEventOmni`
(sync/index2.ts):

```
case "reorg": {
  localSync.latestBlock = event.block;
  const checkpoint = getChainsCheckpoint("latest");
  // await args.syncStore.pruneByBlock();
  args.onRealtimeEvent({ type: "reorg", checkpoint });
}
```

together with the sync-store's `deleteSync`, whose implementation is
`deleteSync: async () => {}` (its declared signature takes
`(fromBlock, chainId)`).  The store is modelled as lists of rows keyed
by `(chain_id, block_number)` plus interval rows. -/

/-- A raw-table row's keying columns. -/
structure StoreRow where
  chain_id : Nat
  block_number : Int
  deriving DecidableEq, Repr

/-- An interval-table row. -/
structure IntervalRow where
  chain_id : Nat
  filter_id : String
  lo : Int
  hi : Int
  deriving DecidableEq, Repr

/-- The sync-store tables a reorg is required to prune. -/
structure SyncStoreState where
  blocks : List StoreRow
  logs : List StoreRow
  transactions : List StoreRow
  transactionReceipts : List StoreRow
  addresses : List StoreRow
  events : List StoreRow
  intervals : List IntervalRow
  deriving DecidableEq, Repr

/-- `deleteSync: async () => \x7b\x7d` — the implementation ignores its
`(fromBlock, chainId)` arguments and leaves the store untouched. -/
def deleteSync (s : SyncStoreState) (_fromBlock : Int) (_chainId : Nat) :
    SyncStoreState := s

/-- The coordinator state the reorg branch touches for one chain. -/
structure ReorgChainState where
  latestBlockNumber : Int
  store : SyncStoreState
  raisedReorgEvents : Nat
  deriving DecidableEq, Repr

/-- The `"reorg"` branch of `onRealtimeSyncEventOmni`: update
`localSync.latestBlock` to the common ancestor and raise the reorg
notification; the `pruneByBlock` call is commented out in the source
and `deleteSync` is the identity, so the store is not touched. -/
def onReorg (s : ReorgChainState) (ancestorNumber : Int) : ReorgChainState :=
  { s with
    latestBlockNumber := ancestorNumber
    raisedReorgEvents := s.raisedReorgEvents + 1 }

/-- The pruning invariant the claim asserts after a reorg on chain `c`
with ancestor number `a`: no row of any table references
`chain_id = c ∧ block_number > a`, and every interval row of chain `c`
is truncated to `[lo, min(hi, a)]`. -/
def reorgPruned (s : SyncStoreState) (c : Nat) (a : Int) : Prop :=
  (∀ r ∈ s.blocks ++ s.logs ++ s.transactions ++ s.transactionReceipts ++
      s.addresses ++ s.events, r.chain_id = c → r.block_number ≤ a) ∧
    ∀ r ∈ s.intervals, r.chain_id = c → r.hi ≤ a

/-! ## Spec-side predicates used to state claims -/

/-- Spec-side address requirement for the bloom pre-filter: the address
constraint is satisfied when it is absent, when the single address is
present, or when some listed address is present. -/
def bloomAddrSatisfied (mem : String → Bool) : AddrSpec → Prop
  | .anone => True
  | .asingle a => mem a = true
  | .alist addrs => addrs = [] ∨ ∃ a ∈ addrs, mem a = true
  | .achild => True

/-- Spec-side requirement of one topic position: unconstrained, or some
allowed value is present in the bloom. -/
def bloomTopicSatisfied (mem : String → Bool) : TopicEntry → Prop
  | .tnull => True
  | .tsingle t => mem t = true
  | .tlist ts => ∃ t ∈ ts, mem t = true

/-- The shape `decodeEvents` leaves every element of its argument array
in: the `RawEvent` columns `data`, `filter_id`, `chain_id` are
overwritten with `undefined`, the decoded log-event fields are written,
`event.id` equals the object's checkpoint, and the object no longer
satisfies the `RawEvent` schema. -/
def decodedShape (o : MutEvent) : Prop :=
  o.data = none ∧ o.filter_id = none ∧ o.chain_id = none ∧
    o.type = some "log" ∧
    o.contractName.isSome = true ∧ o.logEventName.isSome = true ∧
    (∃ b, o.event = some b ∧ b.id = o.checkpoint) ∧
    isValidRawEvent o = false

/-! ## Theorems -/

/-- C1: the pagination contract fails when the last row of a full batch
shares its checkpoint with a further unreturned row that differs only
in `filter_id`.  With two rows `("f1","c")` and `("f2","c")` and
`limit = 1`, the first call returns the `"f1"` row and cursor `"c"`;
the next call selects `checkpoint > "c"` and finds nothing, so the
`"f2"` row — which matches the requested window — is never yielded. -/
theorem getEvents_pagination_skips_tied_row :
    paginateGetEvents [⟨"f1", "c"⟩, ⟨"f2", "c"⟩] ["f1", "f2"] "d" 1 5 "a"
        = [⟨"f1", "c"⟩] ∧
      rowMatches ["f1", "f2"] "a" "d" ⟨"f2", "c"⟩ = true ∧
      EventRow.mk "f2" "c"
          ∉ paginateGetEvents [⟨"f1", "c"⟩, ⟨"f2", "c"⟩] ["f1", "f2"] "d" 1 5 "a" := by
  decide

/-- C2: the coordinator's reorg branch leaves every sync-store table
unchanged — `pruneByBlock` is commented out and `deleteSync` is a
no-op — so after a reorg with ancestor 8 on chain 1 a store holding
rows at block 10 still violates the claimed pruning invariant. -/
theorem reorg_does_not_prune_store :
    (onReorg ⟨10, ⟨[⟨1, 9⟩], [⟨1, 10⟩], [⟨1, 10⟩], [], [], [⟨1, 10⟩],
          [⟨1, "f", 0, 10⟩]⟩, 0⟩ 8).store
        = ⟨[⟨1, 9⟩], [⟨1, 10⟩], [⟨1, 10⟩], [], [], [⟨1, 10⟩], [⟨1, "f", 0, 10⟩]⟩ ∧
      deleteSync ⟨[⟨1, 9⟩], [⟨1, 10⟩], [⟨1, 10⟩], [], [], [⟨1, 10⟩],
          [⟨1, "f", 0, 10⟩]⟩ 8 1
        = ⟨[⟨1, 9⟩], [⟨1, 10⟩], [⟨1, 10⟩], [], [], [⟨1, 10⟩], [⟨1, "f", 0, 10⟩]⟩ ∧
      ¬ reorgPruned ⟨[⟨1, 9⟩], [⟨1, 10⟩], [⟨1, 10⟩], [], [], [⟨1, 10⟩],
          [⟨1, "f", 0, 10⟩]⟩ 1 8 := by
  refine ⟨rfl, rfl, fun h => ?_⟩
  have h2 : (10:Int) ≤ 8 := h.1 ⟨1, 10⟩ (by simp) rfl
  omega

/-- C3: `getFilterId` hashes `JSON.stringify` of the raw filter without
canonicalization, so two filters that differ only in the insertion
order of their object keys — equal under the canonicalization rules —
get different filter ids. -/
theorem getFilterId_not_key_order_invariant :
    canonicalJson (Json.jobj
        [("type", .jstr "log"), ("chainId", .jnum 1), ("fromBlock", .jnum 0)])
        = canonicalJson (Json.jobj
        [("chainId", .jnum 1), ("type", .jstr "log"), ("fromBlock", .jnum 0)]) ∧
      getFilterId "event" (Json.jobj
        [("type", .jstr "log"), ("chainId", .jnum 1), ("fromBlock", .jnum 0)])
        ≠ getFilterId "event" (Json.jobj
        [("chainId", .jnum 1), ("type", .jstr "log"), ("fromBlock", .jnum 0)]) :=
  ⟨rfl, by decide⟩

/-- C4: with `interval = 5, offset = 3` over `[0, 10]`, JS `%` makes
`baseOffset = (0 - 3) % 5 = -3`, so the loop starts at `0 + 8 = 8` and
block 3 — aligned, since `(3 - 3) mod 5 = 0`, and inside the range —
is never requested. -/
theorem syncBlockFilter_skips_aligned_block :
    syncBlockFilterBlocks 5 3 0 10 = [8] ∧
      (0:Int) ≤ 3 ∧ (3:Int) ≤ 10 ∧ ((3:Int) - 3) % 5 = 0 ∧
      (3:Int) ∉ syncBlockFilterBlocks 5 3 0 10 := by
  decide

/-- C8: `createLocalSync` computes the end block number with
`Math.min`, not the maximum `toBlock`: with filters ending at 5 and 10
it fetches block 5.  The open-ended half of the claim does hold: one
filter without `toBlock` makes the end block `undefined`. -/
theorem localSyncEnd_is_minimum :
    localSyncEnd [some 5, some 10] = some 5 ∧
      max (5:Int) 10 = 10 ∧ (5:Int) ≠ 10 ∧
      localSyncEnd [some 5, none] = none := by
  decide

/-- C5 counterexample: `isFilterInBloom` combines topic positions with
`.some` (OR), so a filter whose first topic position is in the bloom
returns `true` even though the second position's requirement is not
satisfied — refuting the claim that `true` implies every per-position
requirement holds. -/
theorem isFilterInBloom_not_and_across_positions :
    isFilterInBloom (fun t => t == "0xaa")
        ⟨.anone, some [.tsingle "0xaa", .tsingle "0xbb"]⟩ = some true ∧
      topicsAllSatisfied (fun t => t == "0xaa")
        ⟨.anone, some [.tsingle "0xaa", .tsingle "0xbb"]⟩ = false := by
  decide

/-- The address branch ladder agrees with the spec-side address
requirement. -/
theorem addressInBloom_iff (mem : String → Bool) (a : AddrSpec) :
    addressInBloom mem a = true ↔ bloomAddrSatisfied mem a := by
  cases a with
  | anone => simp [addressInBloom, bloomAddrSatisfied]
  | asingle a => simp [addressInBloom, bloomAddrSatisfied]
  | alist addrs =>
    cases addrs with
    | nil => simp [addressInBloom, bloomAddrSatisfied]
    | cons a as =>
      simp [addressInBloom, bloomAddrSatisfied, List.any_eq_true]
  | achild => simp [addressInBloom, bloomAddrSatisfied]

/-- One topic entry of the `.some` agrees with the spec-side
per-position requirement. -/
theorem topicEntryInBloom_iff (mem : String → Bool) (e : TopicEntry) :
    topicEntryInBloom mem e = true ↔ bloomTopicSatisfied mem e := by
  cases e <;> simp [topicEntryInBloom, bloomTopicSatisfied, List.any_eq_true]

/-- C5 amended: for every filter whose address is not a child-address
filter (on those the source returns bare `undefined`),
`isFilterInBloom` returns `true` iff the address requirement is
satisfied and the topics constraint is absent, empty, or has AT LEAST
ONE position that is unconstrained or carries an allowed value present
in the bloom — OR across topic positions, not AND. -/
theorem isFilterInBloom_iff (mem : String → Bool) (f : BloomLogFilter)
    (h : f.address ≠ AddrSpec.achild) :
    isFilterInBloom mem f = some true ↔
      bloomAddrSatisfied mem f.address ∧
        (f.topics = none ∨ f.topics = some [] ∨
          ∃ ts, f.topics = some ts ∧ ∃ e ∈ ts, bloomTopicSatisfied mem e) := by
  obtain ⟨addr, topics⟩ := f
  simp only at h ⊢
  have hmain :
      isFilterInBloom mem ⟨addr, topics⟩ =
        some (addressInBloom mem addr && topicsSomeB mem topics) := by
    cases addr with
    | anone => cases topics with
      | none => rfl
      | some ts => cases ts <;> rfl
    | asingle a => cases topics with
      | none => rfl
      | some ts => cases ts <;> rfl
    | alist addrs => cases topics with
      | none => rfl
      | some ts => cases ts <;> rfl
    | achild => exact absurd rfl h
  rw [hmain]
  constructor
  · intro hsome
    have hb := Option.some.inj hsome
    rw [Bool.and_eq_true] at hb
    refine ⟨(addressInBloom_iff mem addr).mp hb.1, ?_⟩
    cases topics with
    | none => exact Or.inl rfl
    | some ts =>
      cases ts with
      | nil => exact Or.inr (Or.inl rfl)
      | cons e es =>
        refine Or.inr (Or.inr ⟨e :: es, rfl, ?_⟩)
        have hb2 := hb.2
        simp only [topicsSomeB, List.any_eq_true] at hb2
        obtain ⟨x, hx, hxb⟩ := hb2
        exact ⟨x, hx, (topicEntryInBloom_iff mem x).mp hxb⟩
  · intro ⟨ha, ht⟩
    have ha' := (addressInBloom_iff mem addr).mpr ha
    have htb : topicsSomeB mem topics = true := by
      rcases ht with h1 | h1 | ⟨ts, hts, x, hx, hxs⟩
      · subst h1; rfl
      · subst h1; rfl
      · subst hts
        cases ts with
        | nil => rfl
        | cons e es =>
          simp only [topicsSomeB, List.any_eq_true]
          exact ⟨x, hx, (topicEntryInBloom_iff mem x).mpr hxs⟩
    rw [ha', htb]; rfl

/-- Witness for `isFilterInBloom_iff` at a concrete filter: single
address present, first topic position not in the bloom, second position
unconstrained. -/
theorem isFilterInBloom_iff_witness :
    (AddrSpec.asingle "0xaa" ≠ AddrSpec.achild) ∧
      (isFilterInBloom (fun t => t == "0xaa")
          ⟨.asingle "0xaa", some [.tsingle "0xbb", .tnull]⟩ = some true ↔
        bloomAddrSatisfied (fun t => t == "0xaa") (AddrSpec.asingle "0xaa") ∧
          ((some [TopicEntry.tsingle "0xbb", .tnull] : Option (List TopicEntry))
              = none ∨
            (some [TopicEntry.tsingle "0xbb", .tnull]
                : Option (List TopicEntry)) = some [] ∨
            ∃ ts, (some [TopicEntry.tsingle "0xbb", .tnull]
                : Option (List TopicEntry)) = some ts ∧
              ∃ e ∈ ts, bloomTopicSatisfied (fun t => t == "0xaa") e)) :=
  ⟨by decide,
    isFilterInBloom_iff (fun t => t == "0xaa")
      ⟨.asingle "0xaa", some [.tsingle "0xbb", .tnull]⟩ (by decide)⟩

/-- Every digit character is `'9'` or below. -/
theorem digitChar_le_nine (d : Nat) : digitChar d = '9' ∨ digitChar d < '9' := by
  match d with
  | 0 => exact Or.inr (by decide)
  | 1 => exact Or.inr (by decide)
  | 2 => exact Or.inr (by decide)
  | 3 => exact Or.inr (by decide)
  | 4 => exact Or.inr (by decide)
  | 5 => exact Or.inr (by decide)
  | 6 => exact Or.inr (by decide)
  | 7 => exact Or.inr (by decide)
  | 8 => exact Or.inr (by decide)
  | n + 9 => exact Or.inl rfl

/-- Every character of a rendered decimal number is a digit. -/
theorem natDecGo_digits (fuel : Nat) :
    ∀ n, ∀ c ∈ natDecGo fuel n, c = '9' ∨ c < '9' := by
  induction fuel with
  | zero => intro n c hc; simp [natDecGo] at hc
  | succ fuel ih =>
    intro n c hc
    simp only [natDecGo] at hc
    split at hc
    · simp only [List.mem_singleton] at hc
      subst hc; exact digitChar_le_nine n
    · rw [List.mem_append] at hc
      rcases hc with hc | hc
      · exact ih (n / 10) c hc
      · simp only [List.mem_singleton] at hc
        subst hc; exact digitChar_le_nine (n % 10)

/-- Appending one digit multiplies the value by ten. -/
theorem decVal_append_digit (xs : List Char) (c : Char) :
    decVal (xs ++ [c]) = 10 * decVal xs + digitVal c := by
  induction xs with
  | nil => simp [decVal]
  | cons x xs ih =>
    have hl : (xs ++ [c]).length = xs.length + 1 := by simp
    calc decVal ((x :: xs) ++ [c])
        = digitVal x * 10 ^ (xs ++ [c]).length + decVal (xs ++ [c]) := rfl
      _ = digitVal x * 10 ^ (xs.length + 1) +
            (10 * decVal xs + digitVal c) := by rw [hl, ih]
      _ = 10 * (digitVal x * 10 ^ xs.length + decVal xs) + digitVal c := by
            rw [pow_succ]; ring
      _ = 10 * decVal (x :: xs) + digitVal c := rfl

/-- `digitChar` and `digitVal` are inverse on digits. -/
theorem digitVal_digitChar (d : Nat) (h : d < 10) :
    digitVal (digitChar d) = d := by
  interval_cases d <;> decide

/-- The rendered decimal string of `n` evaluates back to `n`. -/
theorem decVal_natDecGo (fuel : Nat) :
    ∀ n, n < fuel → decVal (natDecGo fuel n) = n := by
  induction fuel with
  | zero => omega
  | succ fuel ih =>
    intro n hn
    simp only [natDecGo]
    split
    · next hlt => simp [decVal, digitVal_digitChar n hlt]
    · next hge =>
      push_neg at hge
      have hdiv : n / 10 < n := Nat.div_lt_self (by omega) (by omega)
      rw [decVal_append_digit, ih (n / 10) (by omega),
        digitVal_digitChar (n % 10) (Nat.mod_lt n (by omega))]
      omega

/-- Digit-count bound: `n < 10^k` renders in at most `k` characters. -/
theorem natDecGo_length (fuel : Nat) :
    ∀ n k, n < fuel → 1 ≤ k → n < 10 ^ k → (natDecGo fuel n).length ≤ k := by
  induction fuel with
  | zero => omega
  | succ fuel ih =>
    intro n k hn hk h
    simp only [natDecGo]
    split
    · next hlt => simpa using hk
    · next hge =>
      push_neg at hge
      rcases k with _ | _ | k
      · omega
      · norm_num at h; omega
      · have hd : n / 10 < 10 ^ (k + 1) := by
          rw [Nat.div_lt_iff_lt_mul (by norm_num : (0:Nat) < 10)]
          calc n < 10 ^ (k + 2) := h
            _ = 10 ^ (k + 1) * 10 := by rw [pow_succ]
        have hn10 : n / 10 < fuel := by
          have := Nat.div_lt_self (show 0 < n by omega) (show 1 < 10 by omega)
          omega
        have hlen := ih (n / 10) (k + 1) hn10 (by omega) hd
        simp only [List.length_append, List.length_cons, List.length_nil]
        omega

/-- `lpad` makes the string exactly `w` characters when the input fits. -/
theorem lpad_length (w : Nat) (s : List Char) (h : s.length ≤ w) :
    (lpad w s).length = w := by
  unfold lpad
  split
  · simp; omega
  · simp [List.length_take]; omega

/-- `lpad` keeps every character a digit. -/
theorem lpad_digits (w : Nat) (s : List Char)
    (hs : ∀ c ∈ s, c = '9' ∨ c < '9') :
    ∀ c ∈ lpad w s, c = '9' ∨ c < '9' := by
  intro c hc
  unfold lpad at hc
  split at hc
  · rw [List.mem_append] at hc
    rcases hc with hc | hc
    · have := List.eq_of_mem_replicate hc
      subst this
      exact Or.inr (by decide)
    · exact hs c hc
  · exact hs c (List.mem_of_mem_take hc)

/-- Leading zeros do not change the decimal value. -/
theorem decVal_zeros_append (k : Nat) (s : List Char) :
    decVal (List.replicate k '0' ++ s) = decVal s := by
  induction k with
  | zero => simp
  | succ k ih =>
    have h0 : digitVal '0' = 0 := by decide
    calc decVal (List.replicate (k + 1) '0' ++ s)
        = digitVal '0' * 10 ^ (List.replicate k '0' ++ s).length +
            decVal (List.replicate k '0' ++ s) := rfl
      _ = decVal s := by rw [h0, ih]; ring

/-- Padding does not change the decimal value when the input fits. -/
theorem decVal_lpad (w : Nat) (s : List Char) (h : s.length ≤ w) :
    decVal (lpad w s) = decVal s := by
  unfold lpad
  split
  · exact decVal_zeros_append _ s
  · rw [List.take_of_length_le h]

/-- A 16-wide padded decimal below the all-nines value is not the
all-nines string. -/
theorem lpadDec16_ne_all9 (n : Nat) (h : n < 9999999999999999) :
    lpadDec 16 n ≠ "9999999999999999".data := by
  intro heq
  have hp : (10:Nat) ^ 16 = 10000000000000000 := by norm_num
  have h16 : n < 10 ^ 16 := by omega
  have hlen : (natDec n).length ≤ 16 :=
    natDecGo_length (n + 1) n 16 (by omega) (by omega) h16
  have hv : decVal (lpadDec 16 n) = n := by
    unfold lpadDec
    rw [decVal_lpad 16 (natDec n) hlen]
    exact decVal_natDecGo (n + 1) n (by omega)
  rw [heq] at hv
  have hall : decVal "9999999999999999".data = 9999999999999999 := by decide
  omega

/-- `lexLt` ignores a shared prefix. -/
theorem lexLt_append_same (p x y : List Char) :
    lexLt (p ++ x) (p ++ y) = lexLt x y := by
  induction p with
  | nil => rfl
  | cons a p ih =>
    simp only [List.cons_append, lexLt]
    rw [if_neg (lt_irrefl a), if_neg (lt_irrefl a)]
    exact ih

/-- A digit string different from all-nines of its own length is
lexicographically below it, whatever follows either side. -/
theorem lexLt_lt_all9 (cs : List Char) (u v : List Char)
    (hd : ∀ c ∈ cs, c = '9' ∨ c < '9')
    (hne : cs ≠ List.replicate cs.length '9') :
    lexLt (cs ++ u) (List.replicate cs.length '9' ++ v) = true := by
  induction cs with
  | nil => exact absurd rfl hne
  | cons c cs ih =>
    simp only [List.length_cons, List.replicate_succ, List.cons_append, lexLt]
    rcases hd c (List.mem_cons_self c cs) with h9 | h9
    · subst h9
      rw [if_neg (lt_irrefl '9'), if_neg (lt_irrefl '9')]
      refine ih (fun x hx => hd x (List.mem_cons_of_mem _ hx)) (fun hc => hne ?_)
      simp only [List.length_cons, List.replicate_succ]
      exact congrArg (List.cons '9') hc
    · rw [if_pos h9]

/-- C7: the checkpoint of a materialized block event is exactly the
zero-padded `(timestamp, chainId, blockNumber)` prefix followed by the
literals `'9999999999999999'`, `'5'`, `'0000000000000000'`, and it
compares lexicographically above the checkpoint of every log event of
the same block, whose transaction-index field is a zero-padded real
transaction index (any value below the 16-nines sentinel). -/
theorem blockCheckpoint_after_logCheckpoint (ts cid bn txIdx logIdx : Nat)
    (h : txIdx < 9999999999999999) :
    blockCheckpoint ts cid bn =
        ⟨lpadDec 10 ts ++ lpadDec 16 cid ++ lpadDec 16 bn ++
          "9999999999999999".data ++ "5".data ++ "0000000000000000".data⟩ ∧
      strLt (logCheckpoint ts cid bn txIdx logIdx) (blockCheckpoint ts cid bn)
        = true := by
  refine ⟨rfl, ?_⟩
  show lexLt
      (lpadDec 10 ts ++ lpadDec 16 cid ++ lpadDec 16 bn ++
        lpadDec 16 txIdx ++ ['5'] ++ lpadDec 16 logIdx)
      (lpadDec 10 ts ++ lpadDec 16 cid ++ lpadDec 16 bn ++
        "9999999999999999".data ++ "5".data ++ "0000000000000000".data) = true
  simp only [List.append_assoc]
  rw [lexLt_append_same, lexLt_append_same, lexLt_append_same]
  have hp : (10:Nat) ^ 16 = 10000000000000000 := by norm_num
  have hlen : (lpadDec 16 txIdx).length = 16 :=
    lpad_length 16 (natDec txIdx)
      (natDecGo_length (txIdx + 1) txIdx 16 (by omega) (by omega) (by omega))
  have key := lexLt_lt_all9 (lpadDec 16 txIdx)
    (['5'] ++ lpadDec 16 logIdx) ("5".data ++ "0000000000000000".data)
    (lpad_digits 16 (natDec txIdx) (natDecGo_digits (txIdx + 1) txIdx))
    (by rw [hlen]; exact lpadDec16_ne_all9 txIdx h)
  rw [hlen] at key
  exact key

/-- Witness for `blockCheckpoint_after_logCheckpoint` at concrete
values. -/
theorem blockCheckpoint_after_logCheckpoint_witness :
    0 < 9999999999999999 ∧
      strLt (logCheckpoint 1 1 1 0 0) (blockCheckpoint 1 1 1) = true :=
  ⟨by omega, (blockCheckpoint_after_logCheckpoint 1 1 1 0 0 (by omega)).2⟩

/-- C9: for a `topicN` location the extracted child address is the last
20 bytes of the log's topic `N` (a 32-byte, 64-hex-character word), and
for an `offsetK` location it is the 20 bytes of `log.data` starting 12
bytes past the start of the 32-byte word at byte offset `K`. -/
theorem getLogAddressFilterAddress_slices (log : ChildLog) (n k : Nat)
    (t d : String) (ht : log.topics.getD n "" = "0x" ++ t)
    (htl : t.length = 64) (hd : log.data = "0x" ++ d) :
    getLogAddressFilterAddress (.topic n) log = "0x" ++ byteSlice t 12 20 ∧
      (byteSlice t 12 20).data = t.data.drop (t.data.length - 40) ∧
      getLogAddressFilterAddress (.off k) log
        = "0x" ++ byteSlice d (12 + k) 20 := by
  have hxdata : ∀ s : String, ("0x" ++ s).data = '0' :: 'x' :: s.data := by
    intro s
    rw [String.data_append]
    rfl
  refine ⟨?_, ?_, ?_⟩
  · show "0x" ++ substrJS (log.topics.getD n "") (2 + 12 * 2) (20 * 2)
        = "0x" ++ byteSlice t 12 20
    rw [ht]
    refine congrArg (fun l => "0x" ++ l) ?_
    show String.mk ((("0x" ++ t).data.drop 26).take 40)
        = String.mk ((t.data.drop 24).take 40)
    refine congrArg String.mk ?_
    rw [hxdata]
    simp [List.drop_succ_cons]
  · have hlen : t.data.length = 64 := htl
    rw [hlen]
    show (t.data.drop 24).take 40 = t.data.drop (64 - 40)
    have h40 : (t.data.drop 24).length = 40 := by
      rw [List.length_drop, hlen]
    rw [List.take_of_length_le (le_of_eq h40)]
  · show "0x" ++ substrJS log.data (2 + 12 * 2 + k * 2) (20 * 2)
        = "0x" ++ byteSlice d (12 + k) 20
    rw [hd]
    refine congrArg (fun l => "0x" ++ l) ?_
    refine congrArg String.mk ?_
    rw [hxdata]
    have hidx : 2 + 12 * 2 + k * 2 = 2 * (12 + k) + 2 := by ring
    rw [hidx]
    have hdrop : ∀ (j : Nat) (l : List Char),
        ('0' :: 'x' :: l).drop (j + 2) = l.drop j := by
      intro j l
      rw [show j + 2 = (j + 1) + 1 from rfl, List.drop_succ_cons,
        List.drop_succ_cons]
    rw [hdrop]

/-- Witness for `getLogAddressFilterAddress_slices` on a log whose
topic 1 is a 32-byte word and whose data starts with one 32-byte
word. -/
theorem getLogAddressFilterAddress_slices_witness :
    ((ChildLog.mk ["0xb", "0x" ++ (⟨List.replicate 64 'a'⟩ : String)]
        "0x00ff").topics.getD 1 "" = "0x" ++ (⟨List.replicate 64 'a'⟩ : String)) ∧
      (⟨List.replicate 64 'a'⟩ : String).length = 64 ∧
      ((ChildLog.mk ["0xb", "0x" ++ (⟨List.replicate 64 'a'⟩ : String)]
          "0x00ff").data = "0x" ++ "00ff") ∧
      getLogAddressFilterAddress (.topic 1)
          (ChildLog.mk ["0xb", "0x" ++ (⟨List.replicate 64 'a'⟩ : String)]
            "0x00ff")
        = "0x" ++ byteSlice ⟨List.replicate 64 'a'⟩ 12 20 ∧
      getLogAddressFilterAddress (.off 32)
          (ChildLog.mk ["0xb", "0x" ++ (⟨List.replicate 64 'a'⟩ : String)]
            "0x00ff")
        = "0x" ++ byteSlice "00ff" (12 + 32) 20 :=
  ⟨by decide, by decide, by decide,
    (getLogAddressFilterAddress_slices
      (ChildLog.mk ["0xb", "0x" ++ (⟨List.replicate 64 'a'⟩ : String)] "0x00ff")
      1 32 ⟨List.replicate 64 'a'⟩ "00ff" (by decide) (by decide) (by decide)).1,
    (getLogAddressFilterAddress_slices
      (ChildLog.mk ["0xb", "0x" ++ (⟨List.replicate 64 'a'⟩ : String)] "0x00ff")
      1 32 ⟨List.replicate 64 'a'⟩ "00ff" (by decide) (by decide)
      (by decide)).2.2⟩

/-- Points of a `subtractIv` piece lie in `x` and outside `y`. -/
theorem mem_subtractIv (x y p : Iv) (hp : p ∈ subtractIv x y) (n : Int)
    (hn : inIv n p) : inIv n x ∧ ¬ inIv n y := by
  unfold subtractIv at hp
  rw [List.mem_append] at hp
  unfold inIv at hn ⊢
  rcases hp with hp | hp
  · split at hp
    · next hcond =>
      simp only [List.mem_singleton] at hp
      subst hp
      obtain ⟨h1, h2⟩ := hn
      dsimp only at h1 h2 ⊢
      omega
    · simp at hp
  · split at hp
    · next hcond =>
      simp only [List.mem_singleton] at hp
      subst hp
      obtain ⟨h1, h2⟩ := hn
      dsimp only at h1 h2 ⊢
      omega
    · simp at hp

/-- If every point of every accumulator interval is covered by the
remaining cache intervals, peeling them all off leaves nothing. -/
theorem diff_foldl_nil (ys : List Iv) :
    ∀ acc : List Iv,
      (∀ x ∈ acc, x.1 ≤ x.2 ∧ ∀ n : Int, inIv n x → coveredBy n ys) →
      ys.foldl
        (fun acc y => (acc.map (fun x => properIvs (subtractIv x y))).flatten)
        acc = [] := by
  induction ys with
  | nil =>
    intro acc hacc
    simp only [List.foldl_nil]
    cases acc with
    | nil => rfl
    | cons x xs =>
      exfalso
      obtain ⟨hx, hcov⟩ := hacc x (List.mem_cons_self x xs)
      obtain ⟨y, hy, _⟩ := hcov x.1 ⟨le_refl _, hx⟩
      simp at hy
  | cons y ys ih =>
    intro acc hacc
    simp only [List.foldl_cons]
    apply ih
    intro x' hx'
    rw [List.mem_flatten] at hx'
    obtain ⟨l, hl, hx'l⟩ := hx'
    rw [List.mem_map] at hl
    obtain ⟨x, hx, rfl⟩ := hl
    have hx'p : x' ∈ subtractIv x y ∧ x'.1 ≤ x'.2 := by
      unfold properIvs at hx'l
      rw [List.mem_filter] at hx'l
      exact ⟨hx'l.1, by simpa using hx'l.2⟩
    refine ⟨hx'p.2, ?_⟩
    intro n hn
    have hmem := mem_subtractIv x y x' hx'p.1 n hn
    obtain ⟨z, hz, hnz⟩ := (hacc x hx).2 n hmem.1
    rcases List.mem_cons.mp hz with rfl | hz'
    · exact absurd hnz hmem.2
    · exact ⟨z, hz', hnz⟩

/-- An interval whose every point is covered by the cache has empty
difference against it. -/
theorem intervalDifference_covered (iv : Iv) (cache : List Iv)
    (hcov : ∀ n : Int, inIv n iv → coveredBy n cache) :
    intervalDifference [iv] cache = [] := by
  unfold intervalDifference
  apply diff_foldl_nil
  intro x hx
  unfold properIvs at hx
  rw [List.mem_filter] at hx
  rcases List.mem_singleton.mp hx.1 with rfl
  exact ⟨by simpa using hx.2, hcov⟩

/-- C6: when the requested interval, clamped to the filter's
`[fromBlock, toBlock]`, is entirely covered by the filter's cached
completed intervals, the `sync()` iteration for that source performs no
externally visible operation: no RPC request, no `populateEvents`, no
`insertInterval`, no store write at all (so the event table is
unchanged for that filter). -/
theorem sync_skips_covered_interval (env : SyncEnv) (f : SyncFilter)
    (ivCache : List Iv) (req : Iv)
    (hcov : ∀ n : Int, inIv n (clampInterval f req) → coveredBy n ivCache) :
    syncSourceActs env f ivCache req = [] := by
  unfold syncSourceActs
  split
  · rfl
  · dsimp only
    rw [intervalDifference_covered (clampInterval f req) ivCache hcov]
    rfl

/-- Witness for `sync_skips_covered_interval`: a log filter over
`[0, 10]` whose cache holds `[0, 10]`, requested interval `[0, 5]`. -/
theorem sync_skips_covered_interval_witness :
    (∀ n : Int, inIv n (clampInterval (.log 0 (some 10) none) ((0 : Int), (5 : Int))) →
        coveredBy n [((0 : Int), (10 : Int))]) ∧
      syncSourceActs ⟨fun _ _ => [], fun _ => []⟩ (.log 0 (some 10) none)
        [((0 : Int), (10 : Int))] ((0 : Int), (5 : Int)) = [] := by
  have hcl : clampInterval (.log 0 (some 10) none) ((0 : Int), (5 : Int))
      = ((0 : Int), (5 : Int)) := by decide
  have hcov : ∀ n : Int,
      inIv n (clampInterval (.log 0 (some 10) none) ((0 : Int), (5 : Int))) →
      coveredBy n [((0 : Int), (10 : Int))] := by
    intro n hn
    rw [hcl] at hn
    obtain ⟨h1, h2⟩ := hn
    refine ⟨((0 : Int), (10 : Int)), List.mem_singleton.mpr rfl, ?_, ?_⟩
    · dsimp only at h1 h2 ⊢
      omega
    · dsimp only at h1 h2 ⊢
      omega
  exact ⟨hcov, sync_skips_covered_interval _ _ _ _ hcov⟩

/-- Addresses outside the remaining array keep their object across the
decode fold. -/
theorem decodeFold_not_mem (nameOf : Option String → String)
    (abiNameOf : Option String → Option String → String)
    (decodeArgs : RawLogData → String) :
    ∀ (events : List Nat) (h : Heap) (a : Nat), a ∉ events →
      (events.foldl
        (fun hh x => heapWrite hh x (decodeStep nameOf abiNameOf decodeArgs (hh x)))
        h) a = h a := by
  intro events
  induction events with
  | nil => intro h a _; rfl
  | cons e es ih =>
    intro h a ha
    simp only [List.foldl_cons]
    rw [ih _ a (fun hc => ha (List.mem_cons_of_mem _ hc))]
    unfold heapWrite
    rw [if_neg (fun hc => ha (by rw [hc]; exact List.mem_cons_self e es))]

/-- Every address of the array ends up holding the decode of some
object. -/
theorem decodeFold_mem (nameOf : Option String → String)
    (abiNameOf : Option String → Option String → String)
    (decodeArgs : RawLogData → String) :
    ∀ (events : List Nat) (h : Heap) (a : Nat), a ∈ events →
      ∃ o, (events.foldl
        (fun hh x => heapWrite hh x (decodeStep nameOf abiNameOf decodeArgs (hh x)))
        h) a = decodeStep nameOf abiNameOf decodeArgs o := by
  intro events
  induction events with
  | nil => intro h a ha; simp at ha
  | cons e es ih =>
    intro h a ha
    simp only [List.foldl_cons]
    by_cases hmem : a ∈ es
    · exact ih _ a hmem
    · have hae : a = e := by
        rcases List.mem_cons.mp ha with h1 | h1
        · exact h1
        · exact absurd h1 hmem
      subst hae
      rw [decodeFold_not_mem nameOf abiNameOf decodeArgs es _ a hmem]
      unfold heapWrite
      rw [if_pos rfl]
      exact ⟨h a, rfl⟩

/-- `decodeStep` always leaves its object in the decoded shape. -/
theorem decodedShape_decodeStep (nameOf : Option String → String)
    (abiNameOf : Option String → Option String → String)
    (decodeArgs : RawLogData → String) (o : MutEvent) :
    decodedShape (decodeStep nameOf abiNameOf decodeArgs o) := by
  refine ⟨rfl, rfl, rfl, rfl, rfl, rfl, ⟨_, rfl, rfl⟩, rfl⟩

/-- C10: `decodeEvents` returns the very array object it was given
(the same address list), and every element has been mutated in place:
`data`, `filter_id` and `chain_id` are overwritten with `undefined`,
the decoded log-event fields are written onto the same object with
`event.id = checkpoint`, and the element no longer satisfies the
`RawEvent` schema. -/
theorem decodeEvents_returns_mutated_input (nameOf : Option String → String)
    (abiNameOf : Option String → Option String → String)
    (decodeArgs : RawLogData → String) (h : Heap) (events : List Nat) :
    (decodeEvents nameOf abiNameOf decodeArgs h events).2 = events ∧
      ∀ a ∈ events,
        decodedShape ((decodeEvents nameOf abiNameOf decodeArgs h events).1 a) := by
  refine ⟨rfl, ?_⟩
  intro a ha
  obtain ⟨o, ho⟩ := decodeFold_mem nameOf abiNameOf decodeArgs events h a ha
  have ho2 : (decodeEvents nameOf abiNameOf decodeArgs h events).1 a
      = decodeStep nameOf abiNameOf decodeArgs o := ho
  rw [ho2]
  exact decodedShape_decodeStep nameOf abiNameOf decodeArgs o

/-- Witness for `decodeEvents_returns_mutated_input` on a one-element
array holding a valid raw log event. -/
theorem decodeEvents_returns_mutated_input_witness :
    (decodeEvents (fun _ => "C") (fun _ _ => "E") (fun _ => "args")
        (fun _ => ⟨some "f", "cp", some 1, 0,
          some ⟨"0xd", some "0xt0", none, none, none⟩,
          none, none, none, none, none⟩) [0]).2 = [0] ∧
      decodedShape ((decodeEvents (fun _ => "C") (fun _ _ => "E") (fun _ => "args")
        (fun _ => ⟨some "f", "cp", some 1, 0,
          some ⟨"0xd", some "0xt0", none, none, none⟩,
          none, none, none, none, none⟩) [0]).1 0) :=
  ⟨(decodeEvents_returns_mutated_input (fun _ => "C") (fun _ _ => "E")
      (fun _ => "args")
      (fun _ => ⟨some "f", "cp", some 1, 0,
        some ⟨"0xd", some "0xt0", none, none, none⟩,
        none, none, none, none, none⟩) [0]).1,
    (decodeEvents_returns_mutated_input (fun _ => "C") (fun _ _ => "E")
      (fun _ => "args")
      (fun _ => ⟨some "f", "cp", some 1, 0,
        some ⟨"0xd", some "0xt0", none, none, none⟩,
        none, none, none, none, none⟩) [0]).2 0 (by decide)⟩

end Ponder
